import Mathlib

/-!
Verification of the perceval GitHub backend (`perceval/backends/github.py`).

The development shallowly embeds the backend:

* `GitHubClient.get_issues` is modelled as a function from an HTTP
  environment (`http : String → Response`, mapping a request URL to the
  stubbed response served at that URL) and a fuel bound on the number of
  pagination steps to the complete run outcome (`FetchOut`): the raw page
  bodies yielded, the Python exception the run ends with (if any), and the
  log of requests issued (URL with the Authorization header value sent).
* Python string operations used by the code (`str.split`, `int(...)`) are
  modelled by structurally recursive functions on character lists so that
  every definition evaluates inside the kernel.
* The `Backend` cache-queue plumbing and the `Cache` store, whose sources
  are not part of this repository snapshot, are modelled from the spec
  (see the doc comments on `CacheState` and its operations).
* Python exceptions are values of `PyError`; a generator run that raises
  is a `FetchOut` with `error ≠ none`, and the items yielded before the
  exception are still recorded, matching generator semantics.
-/

/-- A Python `datetime` value, abstracted to the one observation the code
makes of it: its `isoformat()` string.  (`datetime` objects are always
truthy, so `if startdate:` is `true` exactly when a datetime is present.) -/
structure Datetime where
  isoformat : String
deriving DecidableEq, Repr

/-- One stubbed HTTP response: the body text, the `next` and `last`
relation links from the `Link` header (as parsed by `requests` into
`r.links`), and the `X-RateLimit-Remaining` header (absent when `none`;
`r.headers[...]` on an absent key raises `KeyError`). -/
structure Response where
  text : String
  nextLink : Option String
  lastLink : Option String
  rateLimitRemaining : Option String
deriving DecidableEq, Repr

/-- Python exceptions the embedded code can raise.  `noFuel` is not a
Python exception: it marks that the fuel bound of the model was exhausted
before pagination ended. -/
inductive PyError where
  | keyError
  | indexError
  | valueError
  | typeError
  | noFuel
deriving DecidableEq, Repr

/-- Outcome of a complete `get_issues` generator run: bodies yielded in
order, the exception that ended the run (if any), and the requests made,
each recorded as (URL, value of the `Authorization` header). -/
structure FetchOut where
  yielded : List String
  error : Option PyError
  reqs : List (String × String)
deriving DecidableEq, Repr

/-- Does `pat` occur as a prefix of `l`? (model of Python substring test
at a position). -/
def beginsWith : List Char → List Char → Bool
  | [], _ => true
  | _ :: _, [] => false
  | p :: ps, c :: cs => p == c && beginsWith ps cs

/-- Fuel-driven worker for `pySplit`.  Scans left to right; on each
occurrence of `sep` closes the current piece and skips the separator.
With `fuel` at least the length of the remaining input the fuel case is
never reached. -/
def pySplitGo (sep : List Char) : Nat → List Char → List Char → List (List Char)
  | 0, rest, acc => [acc.reverse ++ rest]
  | _ + 1, [], acc => [acc.reverse]
  | fuel + 1, c :: cs, acc =>
    if beginsWith sep (c :: cs) then
      acc.reverse :: pySplitGo sep fuel (List.drop (sep.length - 1) cs) []
    else
      pySplitGo sep fuel cs (c :: acc)

/-- Model of Python `s.split(sep)` for a non-empty separator: splits on
every non-overlapping occurrence of `sep`, scanning left to right;
`"".split(sep) = ['']` and a string without the separator yields the
single piece `[s]`. -/
def pySplit (s sep : String) : List String :=
  (pySplitGo sep.toList s.toList.length s.toList []).map String.mk

/-- Characters stripped by Python `int(str)` before parsing (whitespace). -/
def pyIsSpace (c : Char) : Bool :=
  c == ' ' || c == '\t' || c == '\n' || c == '\r' || c == '\x0b' || c == '\x0c'

/-- After the first digit, Python's integer literal grammar allows digits
with single underscores strictly between digits. -/
def pyDigitsTail : List Char → Bool
  | [] => true
  | '_' :: rest =>
    match rest with
    | [] => false
    | c :: cs => c.isDigit && pyDigitsTail cs
  | c :: cs => c.isDigit && pyDigitsTail cs

/-- A non-empty digit sequence, underscores allowed between digits. -/
def pyDigits : List Char → Bool
  | [] => false
  | c :: cs => c.isDigit && pyDigitsTail cs

/-- Decimal value of a digit list, underscores skipped. -/
def pyDigitsVal (cs : List Char) : Nat :=
  (cs.filter (fun c => c != '_')).foldl (fun a c => a * 10 + (c.toNat - 48)) 0

/-- Model of Python `int(s)` in base 10: strips surrounding whitespace,
allows one optional sign, then a non-empty digit sequence with single
underscores between digits.  Returns `none` where `int(...)` raises
`ValueError`. -/
def pyInt? (s : String) : Option Int :=
  let cs := (s.toList.dropWhile pyIsSpace).reverse.dropWhile pyIsSpace |>.reverse
  match cs with
  | '+' :: rest => if pyDigits rest then some (pyDigitsVal rest) else none
  | '-' :: rest => if pyDigits rest then some (-(pyDigitsVal rest : Int)) else none
  | rest => if pyDigits rest then some (pyDigitsVal rest) else none

/-- The substring of `lastUrl` strictly between the first occurrence of
`"&page="` and the next `'&'` (or the end); `none` when `"&page="` does
not occur.  Models `last_url.split('&page=')[1].split('&')[0]`, where the
out-of-range index raises `IndexError`. -/
def lastPageSegment (lastUrl : String) : Option String :=
  match pySplit lastUrl "&page=" with
  | _ :: seg :: _ => some ((pySplit seg "&").headD "")
  | _ => none

/-- `last_page = int(last_url.split('&page=')[1].split('&')[0])`:
`IndexError` when `"&page="` does not occur in the URL, `ValueError` when
the extracted segment is not an integer literal. -/
def parseLastPage (lastUrl : String) : Except PyError Int :=
  match lastPageSegment lastUrl with
  | none => .error .indexError
  | some seg =>
    match pyInt? seg with
    | some n => .ok n
    | none => .error .valueError

/-- `True` exactly when the diagnostic parse of the `last` link succeeds. -/
def parseLastOk (lastUrl : String) : Bool :=
  match parseLastPage lastUrl with
  | .ok _ => true
  | .error _ => false

/-- `parseLastOk` lifted to an optional `last` link: the link must be
present and parse. -/
def lastLinkParses : Option String → Bool
  | none => false
  | some l => parseLastOk l

/-- The `GitHubClient` constructor state: owner, repository, auth token
and the optional enterprise base URL. -/
structure GitHubClient where
  owner : String
  repository : String
  auth_token : String
  base_url : Option String
deriving DecidableEq, Repr

/-- `GitHubClient._get_url`: `https://api.github.com` unless a truthy
(non-empty) `base_url` was configured, then `/repos/{owner}/{repo}`.
Python `if self.base_url:` keeps the default both for `None` and for an
empty string. -/
def GitHubClient.get_url (c : GitHubClient) : String :=
  let github_api :=
    match c.base_url with
    | some b => if b = "" then "https://api.github.com" else b
    | none => "https://api.github.com"
  github_api ++ "/repos" ++ "/" ++ c.owner ++ "/" ++ c.repository

/-- `github_per_page = 30`. -/
def githubPerPage : Nat := 30

/-- `GitHubClient._get_issues_url`: the initial request URL with the fixed
query parameters, plus `&since=<isoformat>` exactly when a start datetime
is given. -/
def GitHubClient.get_issues_url (c : GitHubClient) (startdate : Option Datetime) : String :=
  let url_issues := c.get_url ++ "/issues"
  let url_params := "?per_page=" ++ toString githubPerPage
      ++ "&state=all" ++ "&sort=updated" ++ "&direction=asc"
  let url_params :=
    match startdate with
    | some d => url_params ++ "&since=" ++ d.isoformat
    | none => url_params
  url_issues ++ url_params

/-- The value sent in the `Authorization` header of every request. -/
def GitHubClient.header (c : GitHubClient) : String :=
  "token " ++ c.auth_token

/-- The `while issues:` loop of `get_issues`, entered with the current
response `r` (whose body is the current `issues` value) and the
`last_page` diagnostic (`none` when the first response had no `last`
link).  Per iteration: an empty (falsy) body ends the loop; otherwise the
body is yielded; with no `next` link the loop ends; otherwise the `next`
URL is requested and then the two debug statements run —
`"Page: %i/%i" % (page, last_page)` raises `TypeError` when `last_page`
is `None`, and `r.headers['X-RateLimit-Remaining']` raises `KeyError`
when the header is absent. -/
def getIssuesGo (http : String → Response) (hdr : String) :
    Nat → Response → Option Int → FetchOut
  | fuel, r, lastPage =>
    if r.text = "" then ⟨[], none, []⟩
    else
      match r.nextLink with
      | none => ⟨[r.text], none, []⟩
      | some urlNext =>
        let r2 := http urlNext
        match lastPage with
        | none => ⟨[r.text], some .typeError, [(urlNext, hdr)]⟩
        | some lp =>
          if r2.rateLimitRemaining.isSome then
            match fuel with
            | 0 => ⟨[r.text], some .noFuel, [(urlNext, hdr)]⟩
            | fuel' + 1 =>
              let rest := getIssuesGo http hdr fuel' r2 (some lp)
              ⟨r.text :: rest.yielded, rest.error, (urlNext, hdr) :: rest.reqs⟩
          else ⟨[r.text], some .keyError, [(urlNext, hdr)]⟩

/-- `GitHubClient.get_issues(start)` run to completion against the HTTP
environment `http`, with `fuel` bounding the number of pagination steps.
The first request goes to `_get_issues_url(start)`; the rate-limit header
of the first response is read (may raise `KeyError`); if the first
response carries a `last` link it is parsed for the page-count diagnostic
(may raise `IndexError`/`ValueError`); then the yield loop runs. -/
def GitHubClient.get_issues (c : GitHubClient) (http : String → Response)
    (start : Option Datetime) (fuel : Nat) : FetchOut :=
  let urlFirst := c.get_issues_url start
  let r := http urlFirst
  if r.rateLimitRemaining.isSome then
    match r.lastLink with
    | none =>
      let rest := getIssuesGo http c.header fuel r none
      ⟨rest.yielded, rest.error, (urlFirst, c.header) :: rest.reqs⟩
    | some lastUrl =>
      match parseLastPage lastUrl with
      | .error e => ⟨[], some e, [(urlFirst, c.header)]⟩
      | .ok lp =>
        let rest := getIssuesGo http c.header fuel r (some lp)
        ⟨rest.yielded, rest.error, (urlFirst, c.header) :: rest.reqs⟩
  else ⟨[], some .keyError, [(urlFirst, c.header)]⟩

/-- A response chain in `http`: `isChain http [u1, ..., un]` holds when
response `uk` carries a `next` link pointing exactly to `u(k+1)` and the
response at `un` carries no `next` link. -/
def isChain (http : String → Response) : List String → Bool
  | [] => false
  | [u] => (http u).nextLink == none
  | u :: u' :: rest => ((http u).nextLink == some u') && isChain http (u' :: rest)

/-- Side conditions under which a pagination run is diagnostics-clean:
every response in the chain has a non-empty body and carries the
rate-limit header. -/
def chainBodiesOk (http : String → Response) (us : List String) : Bool :=
  us.all (fun u => ((http u).text != "") && (http u).rateLimitRemaining.isSome)

/-- Modelled from the spec: the `Cache` class and the `Backend` cache
plumbing (`_purge_cache_queue`, `_push_cache_queue`, `_flush_cache_queue`,
`cache.retrieve`) are not part of this repository snapshot.  Per the spec,
the cache is a durable append-only Store of raw Pages in write order plus
an in-memory FIFO Queue buffer of Pages awaiting a flush. -/
structure CacheState where
  store : List String
  queue : List String
deriving DecidableEq, Repr

/-- Modelled from the spec: `enqueue` appends one Page to the in-memory
buffer (`Backend._push_cache_queue`). -/
def pushCacheQueue (c : CacheState) (p : String) : CacheState :=
  { c with queue := c.queue ++ [p] }

/-- Modelled from the spec: `flush` durably appends every buffered Page to
the Store, in buffer order, then clears the buffer
(`Backend._flush_cache_queue`). -/
def flushCacheQueue (c : CacheState) : CacheState :=
  { store := c.store ++ c.queue, queue := [] }

/-- Modelled from the spec: `purge` discards any buffered-but-unflushed
Pages without writing them (`Backend._purge_cache_queue`). -/
def purgeCacheQueue (c : CacheState) : CacheState :=
  { c with queue := [] }

/-- Modelled from the spec: `retrieve` replays persisted Pages in original
append order (`Cache.retrieve`). -/
def CacheState.retrieve (c : CacheState) : List String :=
  c.store

/-- The `CacheError(cause=...)` exception of `perceval.errors`. -/
inductive CacheError where
  | mk (cause : String)
deriving DecidableEq, Repr

/-- One item yielded by `GitHub.fetch`: the issue, the raw page body it
was decoded from (`json.loads(raw_issues)`), and a snapshot of the durable
store contents at the moment the item is yielded to the consumer. -/
structure YieldEv (Issue : Type) where
  issue : Issue
  page : String
  store : List String
deriving DecidableEq, Repr

/-- Outcome of a complete `GitHub.fetch` run: the yield events in order,
the final cache state, and the exception propagated from the underlying
`get_issues` generator (if any). -/
structure FetchResult (Issue : Type) where
  events : List (YieldEv Issue)
  final : CacheState
  error : Option PyError
deriving DecidableEq, Repr

/-- The body of the `for raw_issues in issues_groups:` loop of
`GitHub.fetch`: each raw page is pushed onto the cache queue, the queue is
flushed, and only then are the page's decoded issues yielded one by one.
`loads` models `json.loads` restricted to the JSON-array payloads the
backend consumes. -/
def fetchGo {Issue : Type} (loads : String → List Issue) :
    List String → CacheState → List (YieldEv Issue) × CacheState
  | [], st => ([], st)
  | raw :: rest, st =>
    let st2 := flushCacheQueue (pushCacheQueue st raw)
    let evs := (loads raw).map (fun i => ⟨i, raw, st2.store⟩)
    let (evs', stf) := fetchGo loads rest st2
    (evs ++ evs', stf)

/-- `GitHub.fetch(from_date)` run to completion: purge the cache queue,
run `get_issues`, and for every raw page yielded by the client push it,
flush, decode and yield its issues; an exception from the client
propagates after the pages already yielded were processed. -/
def GitHub.fetch {Issue : Type} (c : GitHubClient) (http : String → Response)
    (loads : String → List Issue) (cache0 : CacheState)
    (from_date : Option Datetime) (fuel : Nat) : FetchResult Issue :=
  let st1 := purgeCacheQueue cache0
  let out := c.get_issues http from_date fuel
  let (evs, stf) := fetchGo loads out.yielded st1
  ⟨evs, stf, out.error⟩

/-- `GitHub.fetch_from_cache()` run to completion: with no cache
configured it raises `CacheError`; otherwise it retrieves the stored pages
and yields the decoded issues of each page in order. -/
def GitHub.fetch_from_cache {Issue : Type} (loads : String → List Issue) :
    Option CacheState → Except CacheError (List Issue)
  | none => .error (.mk "cache instance was not provided")
  | some c => .ok (c.retrieve.flatMap loads)

/-- The items a consumer obtains from an `Except`-valued run: none when
the run raised. -/
def yieldedItems {Issue : Type} : Except CacheError (List Issue) → List Issue
  | .ok l => l
  | .error _ => []

/-- State of the `fetch_from_cache` generator object: freshly created
(body not yet entered), mid-iteration (items of the current page still to
emit, raw pages still to decode), or exhausted. -/
inductive GenState (Issue : Type) where
  | start (cache : Option CacheState)
  | emit (items : List Issue) (pending : List String)
  | finished
deriving DecidableEq, Repr

/-- Calling the generator function `GitHub.fetch_from_cache` returns the
suspended generator without executing any of its body (Python generator
semantics), so the call itself cannot raise: it is always `.ok`. -/
def fetchFromCacheCall (Issue : Type) (cache : Option CacheState) :
    Except CacheError (GenState Issue) :=
  .ok (.start cache)

/-- Emit the next item: drain the current page's decoded items, decoding
further raw pages as needed. -/
def emitFrom {Issue : Type} (loads : String → List Issue) :
    List Issue → List String → Option Issue × GenState Issue
  | i :: is, pending => (some i, .emit is pending)
  | [], raw :: rest => emitFrom loads (loads raw) rest
  | [], [] => (none, .finished)

/-- One `next()` call on the `fetch_from_cache` generator.  The first call
executes the body up to the first yield: with no cache configured the
`CacheError` is raised here, at iteration time. -/
def genNext {Issue : Type} (loads : String → List Issue) :
    GenState Issue → Except CacheError (Option Issue × GenState Issue)
  | .start none => .error (.mk "cache instance was not provided")
  | .start (some c) => .ok (emitFrom loads [] c.retrieve)
  | .emit items pending => .ok (emitFrom loads items pending)
  | .finished => .ok (none, .finished)

/-! ## Helper lemmas about the cache pipeline -/

theorem fetchGo_mem_store {Issue : Type} (loads : String → List Issue) :
    ∀ (pages : List String) (st : CacheState) (ev : YieldEv Issue),
      ev ∈ (fetchGo loads pages st).1 → ev.page ∈ ev.store := by
  intro pages
  induction pages with
  | nil => intro st ev hev; simp [fetchGo] at hev
  | cons raw rest ih =>
    intro st ev hev
    simp only [fetchGo, List.mem_append] at hev
    rcases hev with hev | hev
    · obtain ⟨i, _, rfl⟩ := List.mem_map.mp hev
      simp [flushCacheQueue, pushCacheQueue]
    · exact ih _ ev hev

theorem fetchGo_store {Issue : Type} (loads : String → List Issue) :
    ∀ (pages : List String) (s : List String),
      (fetchGo loads pages ⟨s, []⟩).2 = ⟨s ++ pages, []⟩ := by
  intro pages
  induction pages with
  | nil => intro s; simp [fetchGo]
  | cons raw rest ih =>
    intro s
    simp only [fetchGo, flushCacheQueue, pushCacheQueue]
    rw [ih (s ++ ([] ++ [raw]))]
    simp

theorem fetchGo_issues {Issue : Type} (loads : String → List Issue) :
    ∀ (pages : List String) (st : CacheState),
      ((fetchGo loads pages st).1.map YieldEv.issue) = pages.flatMap loads := by
  intro pages
  induction pages with
  | nil => intro st; simp [fetchGo]
  | cons raw rest ih =>
    intro st
    simp only [fetchGo, List.map_append, List.flatMap_cons]
    rw [ih]
    congr 1
    rw [List.map_map]
    exact List.map_id (loads raw)

/-! ## Claims about the cache pipeline -/

/-- C4: whenever the backend was constructed with no cache object,
iterating `fetch_from_cache` raises a `CacheError` and yields zero
items. -/
theorem fetch_from_cache_no_cache (Issue : Type) (loads : String → List Issue) :
    GitHub.fetch_from_cache loads none
        = .error (.mk "cache instance was not provided")
      ∧ yieldedItems (GitHub.fetch_from_cache loads none) = ([] : List Issue) :=
  ⟨rfl, rfl⟩

/-- C9: because `fetch_from_cache` is a generator, calling it with no
cache configured returns normally (the suspended generator, no
exception); the `CacheError` is raised only at the first iteration of the
returned generator. -/
theorem fetch_from_cache_lazy (Issue : Type) (loads : String → List Issue) :
    fetchFromCacheCall Issue none = .ok (.start none)
      ∧ genNext loads (GenState.start none : GenState Issue)
          = .error (.mk "cache instance was not provided") :=
  ⟨rfl, rfl⟩

/-- C8: `GitHub.fetch` purges buffered-but-unflushed pages left by a prior
aborted run before processing any new page: the run is identical to a run
started with an empty queue, and the final store is the prior store plus
exactly the pages the client yielded — stale queued pages are never
written. -/
theorem fetch_purges_stale_queue (Issue : Type) (loads : String → List Issue)
    (c : GitHubClient) (http : String → Response) (cache0 : CacheState)
    (from_date : Option Datetime) (fuel : Nat) :
    GitHub.fetch c http loads cache0 from_date fuel
        = GitHub.fetch c http loads ⟨cache0.store, []⟩ from_date fuel
      ∧ (GitHub.fetch c http loads cache0 from_date fuel).final.store
        = cache0.store ++ (c.get_issues http from_date fuel).yielded := by
  constructor
  · cases cache0
    rfl
  · simp only [GitHub.fetch, purgeCacheQueue]
    rw [fetchGo_store]

/-- C3: pages pushed and flushed into an initially empty store by a fetch
replay to exactly the live item sequence: `fetch_from_cache` over the
resulting cache yields the same ordered issues the live fetch yielded,
which are exactly the issues obtained by decoding the pages directly. -/
theorem fetch_cache_roundtrip (Issue : Type) (loads : String → List Issue)
    (c : GitHubClient) (http : String → Response) (q : List String)
    (from_date : Option Datetime) (fuel : Nat) :
    GitHub.fetch_from_cache loads
        (some (GitHub.fetch c http loads ⟨[], q⟩ from_date fuel).final)
        = .ok ((GitHub.fetch c http loads ⟨[], q⟩ from_date fuel).events.map YieldEv.issue)
      ∧ (GitHub.fetch c http loads ⟨[], q⟩ from_date fuel).events.map YieldEv.issue
        = (c.get_issues http from_date fuel).yielded.flatMap loads := by
  have hst := fetchGo_store loads (c.get_issues http from_date fuel).yielded ([] : List String)
  have hit := fetchGo_issues loads (c.get_issues http from_date fuel).yielded
      (⟨[], []⟩ : CacheState)
  constructor
  · simp only [GitHub.fetch, purgeCacheQueue, GitHub.fetch_from_cache, CacheState.retrieve,
      hst, hit]
    simp [hit]
  · simp only [GitHub.fetch]
    exact hit

/-- C1: durability before exposure — every issue yielded by a live
`GitHub.fetch` comes from a raw page that is already in the durable store
at the moment the issue is yielded. -/
theorem fetch_durability (Issue : Type) (loads : String → List Issue)
    (c : GitHubClient) (http : String → Response) (cache0 : CacheState)
    (from_date : Option Datetime) (fuel : Nat) (ev : YieldEv Issue)
    (hev : ev ∈ (GitHub.fetch c http loads cache0 from_date fuel).events) :
    ev.page ∈ ev.store := by
  apply fetchGo_mem_store loads (c.get_issues http from_date fuel).yielded
      (purgeCacheQueue cache0) ev
  simpa only [GitHub.fetch] using hev

/-- A one-page HTTP environment used to instantiate `fetch_durability`. -/
def wHttpC1 : String → Response := fun _ => ⟨"P1", none, none, some "9"⟩

/-- A concrete client configuration for witnesses. -/
def wClient : GitHubClient := ⟨"o", "r", "t", none⟩

/-- A concrete decoder for witnesses: a page decodes to one numeric item. -/
def wLoads : String → List Nat := fun s => [s.length]

theorem fetch_durability_witness :
    (⟨2, "P1", ["P1"]⟩ : YieldEv Nat).page ∈ (⟨2, "P1", ["P1"]⟩ : YieldEv Nat).store :=
  fetch_durability Nat wLoads wClient wHttpC1 ⟨[], []⟩ none 1 ⟨2, "P1", ["P1"]⟩ (by decide)

/-! ## Pagination chains -/

/-- The pagination chain continues from response `r` through the URLs
`us`: either `r` is the last page (no `next` link), or its `next` link
points at the head of `us` and the chain `us` continues in `http`. -/
def chainFrom (http : String → Response) (r : Response) : List String → Prop
  | [] => r.nextLink = none
  | u' :: rest => r.nextLink = some u' ∧ isChain http (u' :: rest) = true

theorem chainFrom_of_isChain (http : String → Response) :
    ∀ (u : String) (rest : List String), isChain http (u :: rest) = true →
      chainFrom http (http u) rest := by
  intro u rest h
  cases rest with
  | nil =>
    simp only [isChain, beq_iff_eq] at h
    exact h
  | cons u'' rest' =>
    simp only [isChain, Bool.and_eq_true, beq_iff_eq] at h
    exact ⟨h.1, h.2⟩

theorem isChain_getLast (http : String → Response) :
    ∀ (us : List String), isChain http us = true →
      ∃ ul, us.getLast? = some ul ∧ (http ul).nextLink = none := by
  intro us
  induction us with
  | nil => intro h; simp [isChain] at h
  | cons u rest ih =>
    intro h
    cases rest with
    | nil =>
      simp only [isChain, beq_iff_eq] at h
      exact ⟨u, rfl, h⟩
    | cons u' rest' =>
      simp only [isChain, Bool.and_eq_true] at h
      obtain ⟨ul, hul, hn⟩ := ih h.2
      exact ⟨ul, by rw [List.getLast?_cons_cons]; exact hul, hn⟩

/-- The yield loop walked along a chain with clean diagnostics: every body
in the chain is yielded, in order, and every chain URL is requested with
the Authorization header. -/
theorem getIssuesGo_chain (http : String → Response) (hdr : String) :
    ∀ (us : List String) (fuel : Nat) (r : Response) (lp : Option Int),
      chainFrom http r us →
      r.text ≠ "" →
      chainBodiesOk http us = true →
      (us ≠ [] → lp.isSome) →
      us.length ≤ fuel →
      getIssuesGo http hdr fuel r lp =
        ⟨r.text :: us.map (fun u => (http u).text), none,
          us.map (fun u => (u, hdr))⟩ := by
  intro us
  induction us with
  | nil =>
    intro fuel r lp hch hne _ _ _
    simp only [chainFrom] at hch
    rw [getIssuesGo]
    simp [hne, hch]
  | cons u' rest ih =>
    intro fuel r lp hch hne hcond hlp hfuel
    obtain ⟨hnext, hchain⟩ := hch
    simp only [chainBodiesOk, List.all_cons, Bool.and_eq_true, bne_iff_ne, ne_eq] at hcond
    obtain ⟨⟨hne', hrl'⟩, hcondrest⟩ := hcond
    obtain ⟨k, hk⟩ := Option.isSome_iff_exists.mp (hlp (by simp))
    subst hk
    cases fuel with
    | zero => simp at hfuel
    | succ f =>
      rw [getIssuesGo]
      have hrec := ih f (http u') (some k)
        (chainFrom_of_isChain http u' rest hchain) hne'
        (by simpa [chainBodiesOk] using hcondrest)
        (fun _ => rfl)
        (Nat.le_of_succ_le_succ (by simpa using hfuel))
      simp only [if_neg hne, hnext, hrl', hrec]
      simp

/-- Full characterization of a diagnostics-clean `get_issues` run along a
finite chain starting at the initial issues URL: the run yields exactly
the chain bodies in order, raises nothing, and requests exactly the chain
URLs, each with the Authorization header. -/
theorem get_issues_chain_eq (c : GitHubClient) (http : String → Response)
    (start : Option Datetime) (us : List String) (fuel : Nat)
    (hch : isChain http (c.get_issues_url start :: us) = true)
    (hcond : chainBodiesOk http (c.get_issues_url start :: us) = true)
    (hlast : match (http (c.get_issues_url start)).lastLink with
             | none => us = []
             | some l => parseLastOk l = true)
    (hfuel : us.length ≤ fuel) :
    c.get_issues http start fuel =
      ⟨(c.get_issues_url start :: us).map (fun u => (http u).text), none,
        (c.get_issues_url start :: us).map (fun u => (u, c.header))⟩ := by
  have hcf := chainFrom_of_isChain http _ us hch
  simp only [chainBodiesOk, List.all_cons, Bool.and_eq_true, bne_iff_ne, ne_eq] at hcond
  obtain ⟨⟨hne0, hrl0⟩, hcondrest⟩ := hcond
  simp only [GitHubClient.get_issues, hrl0, if_true]
  cases hl : (http (c.get_issues_url start)).lastLink with
  | none =>
    rw [hl] at hlast
    simp only at hlast
    subst hlast
    rw [getIssuesGo_chain http c.header [] fuel (http (c.get_issues_url start)) none
      hcf hne0 (by simp [chainBodiesOk]) (by simp) (by simp)]
    simp
  | some l =>
    rw [hl] at hlast
    simp only at hlast
    simp only [parseLastOk] at hlast
    cases hp : parseLastPage l with
    | error e => rw [hp] at hlast; simp at hlast
    | ok k =>
      simp only [hp]
      rw [getIssuesGo_chain http c.header us fuel (http (c.get_issues_url start)) (some k)
        hcf hne0 (by simpa [chainBodiesOk] using hcondrest) (fun _ => rfl) hfuel]
      simp

/-! ## C2 and C5: pagination order, termination, and yielded bodies -/

/-- C2 (amended): along a finite chain of responses — each page's `next`
link pointing at the next URL, the last page with no `next` link — and
provided every body is non-empty text, every response carries the
rate-limit header, and the first response's `last`-link diagnostic
succeeds — when a `last` link is present its `&page=` number must
`int()`-parse (the parse runs before the yield loop, so this is required
even on a single-page chain), and when no `last` link is present the
chain must be a single page (a further page would make the eager
page-count format raise) — `get_issues` yields exactly the bodies of
pages 1..n in order, then stops with no exception, and every request
after the first is a GET to exactly the URL taken from the previous
response's `next` link. -/
theorem get_issues_pagination_chain (c : GitHubClient) (http : String → Response)
    (start : Option Datetime) (us : List String) (fuel : Nat)
    (hch : isChain http (c.get_issues_url start :: us) = true)
    (hcond : chainBodiesOk http (c.get_issues_url start :: us) = true)
    (hlast : match (http (c.get_issues_url start)).lastLink with
             | none => us = []
             | some l => parseLastOk l = true)
    (hfuel : us.length ≤ fuel) :
    c.get_issues http start fuel =
      ⟨(c.get_issues_url start :: us).map (fun u => (http u).text), none,
        (c.get_issues_url start :: us).map (fun u => (u, c.header))⟩ :=
  get_issues_chain_eq c http start us fuel hch hcond hlast hfuel

/-- A two-page chain whose first response has no `last` link: the missing
diagnostic makes the eager `"Page: %i/%i" % (page, last_page)` format
raise `TypeError` after the second request. -/
def cexHttpNoLast : String → Response := fun u =>
  if u = "u2" then ⟨"B", none, none, some "9"⟩
  else ⟨"A", some "u2", none, some "10"⟩

/-- C2 counterexample: a finite two-page chain (non-empty bodies,
rate-limit headers present) on which `get_issues` yields only the first
body and raises `TypeError`, instead of yielding the bodies of both
pages. -/
theorem get_issues_pagination_chain_cex :
    isChain cexHttpNoLast [wClient.get_issues_url none, "u2"] = true
      ∧ chainBodiesOk cexHttpNoLast [wClient.get_issues_url none, "u2"] = true
      ∧ (wClient.get_issues cexHttpNoLast none 5).yielded
          ≠ [(cexHttpNoLast (wClient.get_issues_url none)).text, (cexHttpNoLast "u2").text]
      ∧ (wClient.get_issues cexHttpNoLast none 5).error = some .typeError := by
  refine ⟨by decide, by decide, by decide, by decide⟩

/-- A clean two-page chain: parseable `last` link and rate-limit headers
everywhere, non-empty bodies. -/
def wHttpChain : String → Response := fun u =>
  if u = "u2" then ⟨"B", none, none, some "9"⟩
  else ⟨"A", some "u2", some "x&page=2", some "10"⟩

theorem get_issues_pagination_chain_witness :
    wClient.get_issues wHttpChain none 1 =
      ⟨[(wHttpChain (wClient.get_issues_url none)).text, (wHttpChain "u2").text], none,
        [(wClient.get_issues_url none, wClient.header), ("u2", wClient.header)]⟩ :=
  get_issues_pagination_chain wClient wHttpChain none ["u2"] 1
    (by decide) (by decide) (show parseLastOk "x&page=2" = true by decide) (by decide)

/-- C5 (amended): along a diagnostics-clean finite chain with non-empty
bodies, `get_issues` yields the response body of every page it requests —
a body `"[]"` (empty item array) included, being non-empty text — in
request order, raises nothing, and the last requested page is exactly the
one carrying no `next` link.  (A page whose body is the empty string, or
whose arrival makes a diagnostic read raise, is requested but not
yielded.) -/
theorem get_issues_yields_requested_bodies (c : GitHubClient) (http : String → Response)
    (start : Option Datetime) (us : List String) (fuel : Nat)
    (hch : isChain http (c.get_issues_url start :: us) = true)
    (hcond : chainBodiesOk http (c.get_issues_url start :: us) = true)
    (hlast : match (http (c.get_issues_url start)).lastLink with
             | none => us = []
             | some l => parseLastOk l = true)
    (hfuel : us.length ≤ fuel) :
    (c.get_issues http start fuel).yielded
        = (c.get_issues http start fuel).reqs.map (fun q => (http q.1).text)
      ∧ (c.get_issues http start fuel).error = none
      ∧ ∃ ul, (c.get_issues http start fuel).reqs.getLast? = some (ul, c.header)
          ∧ (http ul).nextLink = none := by
  rw [get_issues_chain_eq c http start us fuel hch hcond hlast hfuel]
  refine ⟨by simp [List.map_map], rfl, ?_⟩
  obtain ⟨ul, hul, hn⟩ := isChain_getLast http _ hch
  refine ⟨ul, ?_, hn⟩
  show (List.map (fun u => (u, c.header)) (c.get_issues_url start :: us)).getLast?
      = some (ul, c.header)
  rw [List.getLast?_map, hul]
  rfl

/-- A one-page environment whose body is the empty string but whose
response carries a `next` link. -/
def cexHttpEmptyBody : String → Response := fun _ => ⟨"", some "u2", none, some "5"⟩

/-- C5 counterexample: a requested page whose body is empty text is never
yielded, and the run ends even though the response carries a `next` link
— so "yields the body of every requested page" and "ends exactly when a
response has no next link" both fail as universally stated. -/
theorem get_issues_yields_requested_bodies_cex :
    (wClient.get_issues cexHttpEmptyBody none 5).reqs.length = 1
      ∧ (wClient.get_issues cexHttpEmptyBody none 5).yielded = []
      ∧ (wClient.get_issues cexHttpEmptyBody none 5).error = none
      ∧ (cexHttpEmptyBody (wClient.get_issues_url none)).nextLink = some "u2" := by
  refine ⟨by decide, by decide, by decide, by decide⟩

/-- A one-page environment whose body is the empty item array `"[]"`. -/
def wHttpEmptyArray : String → Response := fun _ => ⟨"[]", none, none, some "7"⟩

theorem get_issues_yields_requested_bodies_witness :
    (wClient.get_issues wHttpEmptyArray none 0).yielded
        = (wClient.get_issues wHttpEmptyArray none 0).reqs.map
            (fun q => (wHttpEmptyArray q.1).text)
      ∧ (wClient.get_issues wHttpEmptyArray none 0).error = none
      ∧ ∃ ul, (wClient.get_issues wHttpEmptyArray none 0).reqs.getLast?
            = some (ul, wClient.header)
          ∧ (wHttpEmptyArray ul).nextLink = none :=
  get_issues_yields_requested_bodies wClient wHttpEmptyArray none [] 0
    (by decide) (by decide) (show ([] : List String) = [] by rfl) (by decide)

/-! ## C6: initial URL construction and the Authorization header -/

theorem repos_chunk (x : String) : "/repos" ++ ("/" ++ x) = "/repos/" ++ x := by
  rw [← String.append_assoc]
  rfl

theorem issues_chunk (x : String) :
    "/issues" ++ ("?per_page=" ++ (toString githubPerPage ++ ("&state=all"
        ++ ("&sort=updated" ++ ("&direction=asc" ++ x)))))
      = "/issues?per_page=30&state=all&sort=updated&direction=asc" ++ x := by
  simp only [← String.append_assoc]
  congr 1

theorem issues_chunk_closed :
    "/issues" ++ ("?per_page=" ++ (toString githubPerPage ++ ("&state=all"
        ++ ("&sort=updated" ++ "&direction=asc"))))
      = "/issues?per_page=30&state=all&sort=updated&direction=asc" := by
  decide

/-- The `&since=` suffix of the initial URL: present exactly when a start
datetime is given. -/
def sinceSuffix : Option Datetime → String
  | some d => "&since=" ++ d.isoformat
  | none => ""

/-- The initial issues URL, written as the spec writes it. -/
theorem get_issues_url_eq (o r t : String) (b? : Option String) (start : Option Datetime)
    (hb : ∀ b, b? = some b → b ≠ "") :
    GitHubClient.get_issues_url ⟨o, r, t, b?⟩ start =
      (b?.getD "https://api.github.com") ++ "/repos/" ++ o ++ "/" ++ r
        ++ "/issues?per_page=30&state=all&sort=updated&direction=asc"
        ++ sinceSuffix start := by
  have hbase : (GitHubClient.mk o r t b?).get_url
      = (b?.getD "https://api.github.com") ++ "/repos" ++ "/" ++ o ++ "/" ++ r := by
    cases b? with
    | none => rfl
    | some b =>
      have hbne := hb b rfl
      simp only [GitHubClient.get_url, Option.getD_some]
      rw [if_neg hbne]
  cases start with
  | none =>
    simp only [GitHubClient.get_issues_url, hbase, sinceSuffix, String.append_empty,
      String.append_assoc, repos_chunk, issues_chunk_closed]
  | some d =>
    simp only [GitHubClient.get_issues_url, hbase, sinceSuffix,
      String.append_assoc, repos_chunk, issues_chunk]

theorem get_issues_reqs_head (c : GitHubClient) (http : String → Response)
    (start : Option Datetime) (fuel : Nat) :
    (c.get_issues http start fuel).reqs.head? = some (c.get_issues_url start, c.header) := by
  simp only [GitHubClient.get_issues]
  split
  · split
    · rfl
    · split
      · rfl
      · rfl
  · rfl

/-- Every request the yield loop makes carries the fixed header. -/
theorem getIssuesGo_reqs_shape (http : String → Response) (hdr : String) :
    ∀ (fuel : Nat) (r : Response) (lp : Option Int),
      ∃ urls : List String,
        (getIssuesGo http hdr fuel r lp).reqs = urls.map (fun u => (u, hdr)) := by
  intro fuel
  induction fuel with
  | zero =>
    intro r lp
    rw [getIssuesGo]
    by_cases ht : r.text = ""
    · rw [if_pos ht]
      exact ⟨[], rfl⟩
    · rw [if_neg ht]
      cases hn : r.nextLink with
      | none => exact ⟨[], rfl⟩
      | some u =>
        cases lp with
        | none => exact ⟨[u], rfl⟩
        | some k =>
          refine ⟨[u], ?_⟩
          by_cases hc : (http u).rateLimitRemaining.isSome = true <;> simp [hc]
  | succ f ih =>
    intro r lp
    rw [getIssuesGo]
    by_cases ht : r.text = ""
    · rw [if_pos ht]
      exact ⟨[], rfl⟩
    · rw [if_neg ht]
      cases hn : r.nextLink with
      | none => exact ⟨[], rfl⟩
      | some u =>
        cases lp with
        | none => exact ⟨[u], rfl⟩
        | some k =>
          by_cases hc : (http u).rateLimitRemaining.isSome = true
          · obtain ⟨urls', hurls⟩ := ih (http u) (some k)
            exact ⟨u :: urls', by simp [hc, hurls]⟩
          · exact ⟨[u], by simp [hc]⟩

theorem get_issues_reqs_header (c : GitHubClient) (http : String → Response)
    (start : Option Datetime) (fuel : Nat) :
    ∀ q ∈ (c.get_issues http start fuel).reqs, q.2 = c.header := by
  intro q hq
  simp only [GitHubClient.get_issues] at hq
  have hgo : ∀ (r : Response) (lp : Option Int),
      q ∈ (getIssuesGo http c.header fuel r lp).reqs → q.2 = c.header := by
    intro r lp hmem
    obtain ⟨urls, hurls⟩ := getIssuesGo_reqs_shape http c.header fuel r lp
    rw [hurls] at hmem
    obtain ⟨u, _, rfl⟩ := List.mem_map.mp hmem
    rfl
  split at hq
  · split at hq
    · rcases List.mem_cons.mp hq with rfl | hq
      · rfl
      · exact hgo _ _ hq
    · split at hq
      · rcases List.mem_cons.mp hq with rfl | hq
        · rfl
        · simp at hq
      · rcases List.mem_cons.mp hq with rfl | hq
        · rfl
        · exact hgo _ _ hq
  · rcases List.mem_cons.mp hq with rfl | hq
    · rfl
    · simp at hq

/-- C6: the first request of every run goes to
`{base}/repos/{owner}/{repo}/issues?per_page=30&state=all&sort=updated&direction=asc`,
with `&since=<ISO-8601>` appended exactly when a from-date is given,
where `{base}` is `https://api.github.com` unless a non-empty `base_url`
was configured; and every request of the run carries the header value
`token {token}`. -/
theorem get_issues_initial_url (o r t : String) (b? : Option String)
    (start : Option Datetime) (http : String → Response) (fuel : Nat)
    (hb : ∀ b, b? = some b → b ≠ "") :
    ((GitHubClient.mk o r t b?).get_issues http start fuel).reqs.head?
        = some ((b?.getD "https://api.github.com") ++ "/repos/" ++ o ++ "/" ++ r
            ++ "/issues?per_page=30&state=all&sort=updated&direction=asc"
            ++ sinceSuffix start, "token " ++ t)
      ∧ ∀ q ∈ ((GitHubClient.mk o r t b?).get_issues http start fuel).reqs,
          q.2 = "token " ++ t := by
  constructor
  · rw [get_issues_reqs_head, get_issues_url_eq o r t b? start hb]
    rfl
  · exact fun q hq => get_issues_reqs_header _ http start fuel q hq

theorem get_issues_initial_url_witness :
    ((GitHubClient.mk "o" "r" "t" none).get_issues wHttpEmptyArray none 0).reqs.head?
        = some ("https://api.github.com" ++ "/repos/" ++ "o" ++ "/" ++ "r"
            ++ "/issues?per_page=30&state=all&sort=updated&direction=asc"
            ++ sinceSuffix none, "token " ++ "t") :=
  (get_issues_initial_url "o" "r" "t" none none wHttpEmptyArray 0
    (fun _ h => nomatch h)).1

/-! ## C7: diagnostics and control flow -/

theorem lastLinkParses_elim (o : Option String) (h : lastLinkParses o = true) :
    ∃ l k, o = some l ∧ parseLastPage l = Except.ok k := by
  cases o with
  | none => simp [lastLinkParses] at h
  | some l =>
    simp only [lastLinkParses, parseLastOk] at h
    cases hp : parseLastPage l with
    | ok k => exact ⟨l, k, rfl, hp⟩
    | error e => rw [hp] at h; simp at h

/-- Once the diagnostics succeed the yield loop is oblivious to them:
over two environments agreeing on bodies and `next` links, with
rate-limit headers present everywhere, the loop produces identical
outcomes for any `last_page` values. -/
theorem getIssuesGo_diag_congr (http1 http2 : String → Response) (hdr : String)
    (ht : ∀ u, (http1 u).text = (http2 u).text)
    (hn : ∀ u, (http1 u).nextLink = (http2 u).nextLink)
    (h1 : ∀ u, (http1 u).rateLimitRemaining.isSome = true)
    (h2 : ∀ u, (http2 u).rateLimitRemaining.isSome = true) :
    ∀ (fuel : Nat) (r1 r2 : Response) (k1 k2 : Int),
      r1.text = r2.text → r1.nextLink = r2.nextLink →
      getIssuesGo http1 hdr fuel r1 (some k1) = getIssuesGo http2 hdr fuel r2 (some k2) := by
  intro fuel
  induction fuel with
  | zero =>
    intro r1 r2 k1 k2 hrt hrn
    rw [getIssuesGo, getIssuesGo, hrt, hrn]
    cases hx : r2.nextLink with
    | none => rfl
    | some u => simp [h1 u, h2 u]
  | succ f ih =>
    intro r1 r2 k1 k2 hrt hrn
    rw [getIssuesGo, getIssuesGo, hrt, hrn]
    cases hx : r2.nextLink with
    | none => rfl
    | some u =>
      simp only [h1 u, h2 u, if_true]
      rw [ih (http1 u) (http2 u) k1 k2 (ht u) (hn u)]

/-- C7 (amended): provided every response carries the rate-limit header
and the first response carries a `last` link whose `&page=` number
parses, the diagnostics do not alter control flow: two environments
agreeing on bodies and `next` links — with arbitrary header values and
arbitrary parseable `last` links — produce identical run outcomes: same
pages yielded, same requests, no exception difference.  (Without those
conditions the diagnostic reads raise and do change the outcome; see the
counterexample.) -/
theorem get_issues_diag_congr (c : GitHubClient) (http1 http2 : String → Response)
    (start : Option Datetime) (fuel : Nat)
    (ht : ∀ u, (http1 u).text = (http2 u).text)
    (hn : ∀ u, (http1 u).nextLink = (http2 u).nextLink)
    (h1 : ∀ u, (http1 u).rateLimitRemaining.isSome = true)
    (h2 : ∀ u, (http2 u).rateLimitRemaining.isSome = true)
    (hl1 : lastLinkParses (http1 (c.get_issues_url start)).lastLink = true)
    (hl2 : lastLinkParses (http2 (c.get_issues_url start)).lastLink = true) :
    c.get_issues http1 start fuel = c.get_issues http2 start fuel := by
  obtain ⟨l1, k1, hll1, hk1⟩ := lastLinkParses_elim _ hl1
  obtain ⟨l2, k2, hll2, hk2⟩ := lastLinkParses_elim _ hl2
  simp only [GitHubClient.get_issues, h1 (c.get_issues_url start),
    h2 (c.get_issues_url start), if_true, hll1, hll2, hk1, hk2]
  rw [getIssuesGo_diag_congr http1 http2 c.header ht hn h1 h2 fuel
    (http1 (c.get_issues_url start)) (http2 (c.get_issues_url start)) k1 k2
    (ht _) (hn _)]

/-- C7 counterexample: two environments identical except that one lacks
the (parseable) `last` link on the first page.  With the link the run
yields both pages and raises nothing; without it the eagerly evaluated
`"Page: %i/%i" % (page, last_page)` raises `TypeError` after the second
request and the run yields only the first page — reading the diagnostics
both raises and changes which pages are yielded. -/
theorem get_issues_diag_congr_cex :
    (wHttpChain (wClient.get_issues_url none)).text
        = (cexHttpNoLast (wClient.get_issues_url none)).text
      ∧ (wHttpChain (wClient.get_issues_url none)).nextLink
        = (cexHttpNoLast (wClient.get_issues_url none)).nextLink
      ∧ (wHttpChain (wClient.get_issues_url none)).rateLimitRemaining
        = (cexHttpNoLast (wClient.get_issues_url none)).rateLimitRemaining
      ∧ wHttpChain "u2" = cexHttpNoLast "u2"
      ∧ (wClient.get_issues wHttpChain none 5).yielded = ["A", "B"]
      ∧ (wClient.get_issues cexHttpNoLast none 5).yielded = ["A"]
      ∧ (wClient.get_issues cexHttpNoLast none 5).error = some .typeError
      ∧ (wClient.get_issues wHttpChain none 5).error = none :=
  ⟨by decide, by decide, by decide, by decide, by decide, by decide, by decide, by decide⟩

/-- Two single-page environments differing only in diagnostic values. -/
def wHttpDiagA : String → Response := fun _ => ⟨"A", none, some "x&page=1", some "5"⟩

/-- As `wHttpDiagA`, with a different rate-limit value and a different
parseable `last` link. -/
def wHttpDiagB : String → Response := fun _ => ⟨"A", none, some "y&page=3", some "77"⟩

theorem get_issues_diag_congr_witness :
    wClient.get_issues wHttpDiagA none 2 = wClient.get_issues wHttpDiagB none 2 :=
  get_issues_diag_congr wClient wHttpDiagA wHttpDiagB none 2
    (fun _ => rfl) (fun _ => rfl) (fun _ => rfl) (fun _ => rfl) (by decide) (by decide)

/-! ## C10: failure of the last-link diagnostic parse -/

/-- C10: when the first response carries a `last` link in which `&page=`
either does not occur, or is not followed (before the next `&`) by a
number accepted by `int()`, `get_issues` raises before yielding any page.
(When the rate-limit header is absent the earlier `KeyError` fires
instead; either way an exception precedes the first yield.) -/
theorem get_issues_bad_last_link (c : GitHubClient) (http : String → Response)
    (start : Option Datetime) (fuel : Nat) (l : String)
    (hl : (http (c.get_issues_url start)).lastLink = some l)
    (hbad : lastPageSegment l = none
        ∨ ∃ seg, lastPageSegment l = some seg ∧ pyInt? seg = none) :
    (c.get_issues http start fuel).yielded = []
      ∧ (c.get_issues http start fuel).error.isSome = true := by
  have hperr : ∃ e, parseLastPage l = Except.error e := by
    rcases hbad with h | ⟨seg, hseg, hint⟩
    · exact ⟨.indexError, by simp [parseLastPage, h]⟩
    · exact ⟨.valueError, by simp [parseLastPage, hseg, hint]⟩
  obtain ⟨e, he⟩ := hperr
  simp only [GitHubClient.get_issues]
  by_cases hrl : (http (c.get_issues_url start)).rateLimitRemaining.isSome = true
  · simp [hrl, hl, he]
  · simp [if_neg hrl]

/-- A first response whose `last` link has `page` as the first query
parameter, so that `&page=` does not occur in it. -/
def wHttpBadLast : String → Response :=
  fun _ => ⟨"[]", none, some "https://api.github.com/repos/o/r/issues?page=3", some "42"⟩

theorem get_issues_bad_last_link_witness :
    (wClient.get_issues wHttpBadLast none 3).yielded = []
      ∧ (wClient.get_issues wHttpBadLast none 3).error.isSome = true :=
  get_issues_bad_last_link wClient wHttpBadLast none 3
    "https://api.github.com/repos/o/r/issues?page=3" rfl (Or.inl (by decide))
